import Mathlib

/-!
Shallow embedding of the chem-matcher program (`src/src/main.rs`).

Strings are modelled as `List Char`.  Rust byte lengths coincide with
character counts on the ASCII inputs exercised here; the thresholds below
use character counts.  `HashMap<String, u32>` is modelled as an association
list queried with `List.lookup` (first binding wins), and `HashMap::insert`,
which overwrites, is modelled by prepending the new binding, which is
lookup-equivalent.  `HashSet<String>` is modelled as a `List (List Char)`
queried with membership.
-/

namespace ChemMatcher

/-- The constant `WORD_SPLITS` of main.rs line 22. -/
def WORD_SPLITS : List Char :=
  [' ', '\t', '\n', '\r', ',', '.', ';', ':', '!', '?', '(', ')',
   '[', ']', '\x7b', '\x7d', '<', '>', '"', '\'']

/-- The constant `MIN_WORD_LENGTH = 5` of main.rs line 23. -/
def MIN_WORD_LENGTH : Nat := 5

/-- The mask token constant `MASK` of main.rs line 25. -/
def MASK : List Char := "<|MOLECULE|>".toList

/-- A vocabulary: `HashMap<String, u32>` as an association list. -/
abbrev Vocab := List (List Char × Nat)

/-- One element of `SearchResults = Vec<(String, String, u32)>`:
(masked context, matched key, identifier). -/
abbrev SearchRec := List Char × List Char × Nat

/-- Tests whether `p` starts `s` (used to locate pattern occurrences). -/
def hasPre (p s : List Char) : Bool := s.take p.length == p

/-- Worker for `replaceAll`.  `fuel` bounds the recursion; every step with a
non-empty pattern consumes at least one character of `s`, so `fuel = s.length`
never runs out at the call site below. -/
def replaceGo (pat repl : List Char) : Nat → List Char → List Char
  | _, [] => []
  | 0, s => s
  | fuel + 1, c :: rest =>
    if hasPre pat (c :: rest) then
      repl ++ replaceGo pat repl fuel (List.drop (pat.length - 1) rest)
    else
      c :: replaceGo pat repl fuel rest

/-- Rust `str::replace(pat, repl)`: replace every leftmost non-overlapping
occurrence of `pat` in `s` by `repl`.  No call site of the program passes an
empty pattern, for which we return `s` unchanged. -/
def replaceAll (s pat repl : List Char) : List Char :=
  if pat = [] then s else replaceGo pat repl s.length s

/-- Worker for `splitOnSeq`: split at every leftmost non-overlapping
occurrence of the (non-empty) separator sequence `sep`. -/
def splitSeqGo (sep : List Char) : Nat → List Char → List Char → List (List Char)
  | _, acc, [] => [acc.reverse]
  | 0, acc, s => [acc.reverse ++ s]
  | fuel + 1, acc, c :: rest =>
    if hasPre sep (c :: rest) then
      acc.reverse :: splitSeqGo sep fuel [] (List.drop (sep.length - 1) rest)
    else
      splitSeqGo sep fuel (c :: acc) rest

/-- The regex split on two newlines of main.rs line 152: split the
text at every leftmost non-overlapping occurrence of two consecutive
newlines. -/
def splitParagraphs (s : List Char) : List (List Char) :=
  splitSeqGo ['\n', '\n'] s.length [] s

/-- Rust `str::split(&[char])` (main.rs line 159): split at every occurrence
of any delimiter character; adjacent delimiters produce empty tokens. -/
def splitAnyGo (delims : List Char) : List Char → List Char → List (List Char)
  | acc, [] => [acc.reverse]
  | acc, c :: rest =>
    if c ∈ delims then acc.reverse :: splitAnyGo delims [] rest
    else splitAnyGo delims (c :: acc) rest

def splitAny (delims s : List Char) : List (List Char) := splitAnyGo delims [] s

/-- ASCII-uppercase a single character (`u8::make_ascii_uppercase`). -/
def asciiUpper (c : Char) : Char :=
  if 'a' ≤ c ∧ c ≤ 'z' then Char.ofNat (c.toNat - 32) else c

/-- ASCII-lowercase a single character (`u8::make_ascii_lowercase`). -/
def asciiLower (c : Char) : Char :=
  if 'A' ≤ c ∧ c ≤ 'Z' then Char.ofNat (c.toNat + 32) else c

/-- Rust `to_ascii_titlecase` (main.rs lines 74-80): ASCII-uppercase the first
character, leave the rest as-is.  (In Rust the mutation targets the first
byte and is skipped when `0..1` is not a char boundary, i.e. for a non-ASCII
first character; `asciiUpper` leaves non-ASCII characters unchanged too.) -/
def to_ascii_titlecase : List Char → List Char
  | [] => []
  | c :: rest => asciiUpper c :: rest

/-- Rust `from_ascii_titlecase` (main.rs lines 82-88): ASCII-lowercase the first
character. -/
def from_ascii_titlecase : List Char → List Char
  | [] => []
  | c :: rest => asciiLower c :: rest

/-- The masking applied on a match (main.rs lines 178-179 and 195-196):
replace every occurrence of the key, then of its first-letter-lowercased
variant, by the mask token, in a copy of the paragraph. -/
def maskKey (paragraph key : List Char) : List Char :=
  replaceAll (replaceAll paragraph key MASK) (from_ascii_titlecase key) MASK

/-- Per-paragraph scanner state of `search_keys_in_text`: the one-token
lookback buffer `last_word`, the per-paragraph `seen` set, and the records
accumulated so far.  (The running offsets `count`/`last_count` of the source
are dead state: they are never read, so they are not modelled.) -/
structure ScanState where
  last_word : List Char
  seen : List (List Char)
  results : List SearchRec
deriving DecidableEq

/-- Loop body of `paragraph.split(WORD_SPLITS).map(|word| ...)`
(main.rs lines 159-188): bigram lookup first, else unigram lookup on the
previous token, masking and recording on a hit. -/
def stepToken (map : Vocab) (paragraph : List Char) (st : ScanState)
    (word : List Char) : ScanState :=
  let title_word := to_ascii_titlecase word
  let last_key := st.last_word ++ ' ' :: word
  if MIN_WORD_LENGTH ≤ word.length ∧ (List.lookup last_key map).isSome ∧
      last_key ∉ st.seen then
    { last_word := title_word, seen := last_key :: st.seen,
      results := st.results ++
        [(maskKey paragraph last_key, last_key, (List.lookup last_key map).getD 0)] }
  else if MIN_WORD_LENGTH ≤ st.last_word.length ∧
      (List.lookup st.last_word map).isSome ∧ st.last_word ∉ st.seen then
    { last_word := title_word, seen := st.last_word :: st.seen,
      results := st.results ++
        [(maskKey paragraph st.last_word, st.last_word,
          (List.lookup st.last_word map).getD 0)] }
  else
    { st with last_word := title_word }

/-- The "add the last word" pass after the token loop (main.rs lines
191-200), including the source's extra `replace(&last_word, MASK)` inside
the push on line 198. -/
def finishParagraph (map : Vocab) (paragraph : List Char) (st : ScanState) :
    List SearchRec :=
  if MIN_WORD_LENGTH ≤ st.last_word.length ∧
      (List.lookup st.last_word map).isSome ∧ st.last_word ∉ st.seen then
    st.results ++
      [(replaceAll (maskKey paragraph st.last_word) st.last_word MASK,
        st.last_word, (List.lookup st.last_word map).getD 0)]
  else st.results

/-- Scan of one paragraph: fold the token loop over the paragraph's tokens
starting from empty state, then the final-token pass. -/
def scanParagraph (map : Vocab) (paragraph : List Char) : List SearchRec :=
  finishParagraph map paragraph
    ((splitAny WORD_SPLITS paragraph).foldl (stepToken map paragraph)
      ⟨[], [], []⟩)

/-- Rust `search_keys_in_text` (main.rs lines 150-205): split into paragraphs on
`\n\n`, scan each paragraph independently, concatenate the records in
paragraph order. -/
def search_keys_in_text (map : Vocab) (text : List Char) : List SearchRec :=
  ((splitParagraphs text).map (scanParagraph map)).flatten

/-! ## Vocabulary builder (`parse_csv`, main.rs lines 114-147) -/

/-- Rust `str::trim`: strip whitespace from both ends.  (Lean's
`Char.isWhitespace` covers the ASCII whitespace relevant here.) -/
def trim (s : List Char) : List Char :=
  ((s.dropWhile Char.isWhitespace).reverse.dropWhile Char.isWhitespace).reverse

/-- Rust `StemmerWrapper::standardize` (main.rs lines 68-70): trim, lowercase,
stem.  The Snowball English stemmer lives in the external `rust_stemmers`
crate, so it is a parameter of the model; lowercasing is modelled for ASCII. -/
def standardize (stem : List Char → List Char) (word : List Char) : List Char :=
  stem ((trim word).map asciiLower)

/-- Rust `str::parse::<u32>()`: optional leading `+`, then one or more ASCII
digits, value within `u32` range; anything else fails. -/
def parseU32 (s : List Char) : Option Nat :=
  let t := match s with | '+' :: r => r | _ => s
  if t = [] then none
  else if t.all (fun c => decide ('0' ≤ c ∧ c ≤ '9')) then
    let n := t.foldl (fun a c => a * 10 + (c.toNat - 48)) 0
    if n < 2 ^ 32 then some n else none
  else none

/-- Rust `HashMap::insert`, which overwrites any existing binding: with
`List.lookup` returning the first binding, prepending is lookup-equivalent. -/
def insertKV (m : Vocab) (k : List Char) (v : Nat) : Vocab := (k, v) :: m

/-- The line loop of `parse_csv` (main.rs lines 129-141), accumulating the
map: split each line on tab; with exactly two fields, accept the key when it
is long enough and its standardized stem is not banned, parsing the numeric
field as `u32` (`unwrap` panic on failure modelled as `none`); otherwise the
line is skipped.  The `skipped` counter is write-only observability and is
not modelled. -/
def parseCsvGo (stem : List Char → List Char) (banned : List (List Char)) :
    Vocab → List (List Char) → Option Vocab
  | m, [] => some m
  | m, line :: rest =>
    let split := splitAny ['\t'] line
    if split.length = 2 then
      let value := trim (split.getD 0 [])
      let key := trim (split.getD 1 [])
      if MIN_WORD_LENGTH ≤ key.length ∧ standardize stem key ∉ banned then
        match parseU32 value with
        | some v => parseCsvGo stem banned (insertKV m (to_ascii_titlecase key) v) rest
        | none => none
      else parseCsvGo stem banned m rest
    else parseCsvGo stem banned m rest

/-- Rust `parse_csv` (main.rs lines 114-147) on the file's lines. -/
def parse_csv (stem : List Char → List Char) (banned : List (List Char))
    (lines : List (List Char)) : Option Vocab :=
  parseCsvGo stem banned [] lines

/-! ## Report writer (`generate_report`, main.rs lines 209-215) -/

/-- Rust `generate_report`: the exact bytes appended to the writer, one formatted
entry `"word",cid,"context",paper_id\n` per record, escaping double quotes
as `\"` in the context field (`context.replace("\"", "\\\"")`). -/
def generate_report (results : List SearchRec) (paper_id : List Char) :
    List Char :=
  (results.map (fun r =>
    '"' :: r.2.1 ++ '"' :: ',' :: Nat.toDigits 10 r.2.2 ++ ',' :: '"' ::
      replaceAll r.1 ['"'] ['\\', '"'] ++ '"' :: ',' :: paper_id ++ ['\n'])).flatten

/-! ## The gzip JSON-lines worker loop (main.rs lines 240-278) -/

/-- Abstract view of one line of the gzip-compressed JSON-lines input, as
the loop observes it: an empty line, a line `serde_json` fails to parse, or
a parsed object exposing the optional string at `json["content"][property]`
and the optional `u64` at `json["corpusid"]`.  JSON parsing itself is the
external `serde_json` crate; only this observable shape reaches the loop. -/
inductive GzLine where
  | empty : GzLine
  | badJson : GzLine
  | obj (text : Option (List Char)) (corpusid : Option Nat) : GzLine
deriving DecidableEq

/-- The `"gz"` branch of the worker (main.rs lines 240-278): stop after 1000
processed lines; skip empty lines, JSON parse failures and objects without
the text property; `process::exit(1)` — modelled as `Except.error` — when
`corpusid` is missing; otherwise run the matcher on the text and append the
formatted report with the corpus id as document id. -/
def processGzLines (map : Vocab) : Nat → List GzLine → Except Unit (List Char)
  | _, [] => .ok []
  | count, l :: rest =>
    if count = 1000 then .ok []
    else match l with
      | .empty => processGzLines map count rest
      | .badJson => processGzLines map count rest
      | .obj none _ => processGzLines map count rest
      | .obj (some _) none => .error ()
      | .obj (some t) (some cid) =>
        match processGzLines map (count + 1) rest with
        | .error e => .error e
        | .ok out =>
          .ok (generate_report (search_keys_in_text map t)
                (Nat.toDigits 10 cid) ++ out)

/-! ## Predicates used to state properties of the matcher -/

/-- Shape of every key a record can carry: either a bigram candidate, which
contains the joining space inserted on main.rs line 165, or the title-cased
previous token, whose first character is never a lowercase ASCII letter. -/
def keyShape (k : List Char) : Prop :=
  ' ' ∈ k ∨ ∀ c, k.head? = some c → ¬ ('a' ≤ c ∧ c ≤ 'z')

/-- Invariant of the token loop of `search_keys_in_text`, relating the
scanner state to the vocabulary and to the paragraph being scanned. -/
def ScanInv (map : Vocab) (paragraph : List Char) (st : ScanState) : Prop :=
  (∀ r ∈ st.results, List.lookup r.2.1 map = some r.2.2) ∧
  (∀ r ∈ st.results, r.1 = maskKey paragraph r.2.1) ∧
  (st.results.map (fun r => r.2.1)).Nodup ∧
  (∀ r ∈ st.results, r.2.1 ∈ st.seen) ∧
  (st.last_word = [] ∨ ∃ w, st.last_word = to_ascii_titlecase w) ∧
  (∀ r ∈ st.results, keyShape r.2.1)

/-- Acceptance test of one vocabulary line (main.rs lines 130-134): splits
on tab into exactly two fields, trimmed surface form long enough, its
standardized stem not banned. -/
def csvAccepts (stem : List Char → List Char) (banned : List (List Char))
    (line : List Char) : Prop :=
  (splitAny ['\t'] line).length = 2 ∧
  MIN_WORD_LENGTH ≤ (trim ((splitAny ['\t'] line).getD 1 [])).length ∧
  standardize stem (trim ((splitAny ['\t'] line).getD 1 [])) ∉ banned

/-- The map key an accepted vocabulary line contributes (main.rs line 135). -/
def csvKey (line : List Char) : List Char :=
  to_ascii_titlecase (trim ((splitAny ['\t'] line).getD 1 []))

/-- The parsed numeric field of a vocabulary line (main.rs line 135). -/
def csvVal (line : List Char) : Option Nat :=
  parseU32 (trim ((splitAny ['\t'] line).getD 0 []))

/-- Modelled from the spec's output-format words, for comparison with
`generate_report`: one entry `"word",cid,"context",docid` plus newline per
record, double quotes escaped as `\"` in the context field only. -/
def reportLineSpec (paper_id : List Char) (r : SearchRec) : List Char :=
  ['"'] ++ r.2.1 ++ ['"', ','] ++ Nat.toDigits 10 r.2.2 ++ [','] ++
    ['"'] ++ replaceAll r.1 ['"'] ['\\', '"'] ++ ['"', ','] ++
    paper_id ++ ['\n']

/-! ## Concrete data used by the claims -/

/-- Vocabulary of `test_search_keys_in_text_cases` (main.rs lines 357-362). -/
def vocabCases : Vocab :=
  [("Apple juice".toList, 1), ("ORANGE".toList, 2), ("Carrot".toList, 3),
   ("juice".toList, 4), ("Apple".toList, 5)]

/-- Text of `test_search_keys_in_text_cases` (main.rs line 364). -/
def textCases : List Char :=
  "I have an apple juice and an ORANGE, but I do not have a CARROT. Apple".toList

/-- Concrete stemmer used in examples: the Snowball English stems of the
words of `test_parse_csv` ("example" ↦ "exampl"; "world" is its own stem).
The stemmer itself is the external `rust_stemmers` crate. -/
def stemEx (w : List Char) : List Char :=
  if w = "example".toList then ("exampl".toList) else w

/-- A two-entry vocabulary exhibiting rematches after masking. -/
def vocabHW : Vocab := [("Hello".toList, 1), ("World".toList, 2)]

end ChemMatcher

/-! # Theorems -/

namespace ChemMatcher

/-! ## Character-level facts -/

theorem char_le_iff_toNat {a b : Char} : a ≤ b ↔ a.toNat ≤ b.toNat := Iff.rfl

theorem toNat_ofNat_valid {n : Nat} (h : n.isValidChar) :
    (Char.ofNat n).toNat = n := by
  unfold Char.ofNat
  rw [dif_pos h]
  rfl

/-- The function `asciiUpper` never produces a lowercase ASCII letter. -/
theorem asciiUpper_not_lower (c : Char) :
    ¬ ('a' ≤ asciiUpper c ∧ asciiUpper c ≤ 'z') := by
  unfold asciiUpper
  split
  · next h =>
    obtain ⟨h1, h2⟩ := h
    rw [char_le_iff_toNat] at h1 h2
    have e1 : ('a').toNat = 97 := rfl
    have e2 : ('z').toNat = 122 := rfl
    rw [e1] at h1
    rw [e2] at h2
    intro hcon
    obtain ⟨ha, _⟩ := hcon
    rw [char_le_iff_toNat, e1] at ha
    have hval : (c.toNat - 32).isValidChar := Or.inl (by omega)
    rw [toNat_ofNat_valid hval] at ha
    omega
  · next h => exact h

/-- The first character of a title-cased token is never a lowercase ASCII
letter. -/
theorem head_titlecase_not_lower (w : List Char) (c : Char)
    (hc : (to_ascii_titlecase w).head? = some c) :
    ¬ ('a' ≤ c ∧ c ≤ 'z') := by
  cases w with
  | nil => simp [to_ascii_titlecase] at hc
  | cons d rest =>
    simp only [to_ascii_titlecase, List.head?_cons, Option.some.injEq] at hc
    exact hc ▸ asciiUpper_not_lower d

/-! ## Invariants of the paragraph scanner -/

/-- Appending a fresh record preserves the invariant's record clauses. -/
theorem scanInv_push (map : Vocab) (paragraph : List Char) (st : ScanState)
    (key title : List Char) (h : ScanInv map paragraph st)
    (hsome : (List.lookup key map).isSome) (hseen : key ∉ st.seen)
    (htitle : title = [] ∨ ∃ w, title = to_ascii_titlecase w)
    (hshape : keyShape key) :
    ScanInv map paragraph
      { last_word := title, seen := key :: st.seen,
        results := st.results ++
          [(maskKey paragraph key, key, (List.lookup key map).getD 0)] } := by
  obtain ⟨h1, h2, h3, h4, _, h6⟩ := h
  obtain ⟨v, hv⟩ := Option.isSome_iff_exists.mp hsome
  refine ⟨?_, ?_, ?_, ?_, htitle, ?_⟩
  · intro r hr
    rcases List.mem_append.mp hr with hr | hr
    · exact h1 r hr
    · rw [List.mem_singleton] at hr
      subst hr
      simp [hv]
  · intro r hr
    rcases List.mem_append.mp hr with hr | hr
    · exact h2 r hr
    · rw [List.mem_singleton] at hr
      subst hr
      rfl
  · rw [List.map_append, List.nodup_append]
    refine ⟨h3, List.nodup_singleton _, ?_⟩
    intro a ha hb
    rw [List.map_singleton, List.mem_singleton] at hb
    subst hb
    obtain ⟨r, hr, hrk⟩ := List.mem_map.mp ha
    exact hseen (hrk ▸ h4 r hr)
  · intro r hr
    rcases List.mem_append.mp hr with hr | hr
    · exact List.mem_cons_of_mem _ (h4 r hr)
    · rw [List.mem_singleton] at hr
      subst hr
      exact List.mem_cons_self _ _
  · intro r hr
    rcases List.mem_append.mp hr with hr | hr
    · exact h6 r hr
    · rw [List.mem_singleton] at hr
      subst hr
      exact hshape

/-- One step of the token loop preserves the invariant. -/
theorem scanInv_stepToken (map : Vocab) (paragraph : List Char)
    (st : ScanState) (word : List Char) (h : ScanInv map paragraph st) :
    ScanInv map paragraph (stepToken map paragraph st word) := by
  have h5 := h.2.2.2.2.1
  simp only [stepToken]
  split
  · next hb =>
    refine scanInv_push map paragraph st _ _ h hb.2.1 hb.2.2
      (Or.inr ⟨word, rfl⟩) (Or.inl ?_)
    exact List.mem_append.mpr (Or.inr (List.mem_cons_self _ _))
  · split
    · next hu =>
      refine scanInv_push map paragraph st _ _ h hu.2.1 hu.2.2
        (Or.inr ⟨word, rfl⟩) (Or.inr ?_)
      intro c hc
      rcases h5 with h5 | ⟨w, hw⟩
      · rw [h5] at hc
        simp at hc
      · exact head_titlecase_not_lower w c (hw ▸ hc)
    · next =>
      obtain ⟨h1, h2, h3, h4, _, h6⟩ := h
      exact ⟨h1, h2, h3, h4, Or.inr ⟨word, rfl⟩, h6⟩

/-- The token loop preserves the invariant. -/
theorem scanInv_foldl (map : Vocab) (paragraph : List Char)
    (words : List (List Char)) (st : ScanState)
    (h : ScanInv map paragraph st) :
    ScanInv map paragraph (words.foldl (stepToken map paragraph) st) := by
  induction words generalizing st with
  | nil => exact h
  | cons w ws ih => exact ih _ (scanInv_stepToken map paragraph st w h)

/-- The invariant holds of the empty initial state. -/
theorem scanInv_init (map : Vocab) (paragraph : List Char) :
    ScanInv map paragraph ⟨[], [], []⟩ := by
  refine ⟨?_, ?_, ?_, ?_, Or.inl rfl, ?_⟩ <;> simp [ScanState.results]

/-- Every record of a paragraph scan: its identifier is the vocabulary value
of its key, its context is the all-occurrence masking of the paragraph at
its key (with the redundant extra replacement for final-token records), the
keys are pairwise distinct, and every key has the reachable shape. -/
theorem scanParagraph_inv (map : Vocab) (paragraph : List Char) :
    (∀ r ∈ scanParagraph map paragraph, List.lookup r.2.1 map = some r.2.2) ∧
    (∀ r ∈ scanParagraph map paragraph,
        r.1 = maskKey paragraph r.2.1 ∨
        r.1 = replaceAll (maskKey paragraph r.2.1) r.2.1 MASK) ∧
    ((scanParagraph map paragraph).map (fun r => r.2.1)).Nodup ∧
    (∀ r ∈ scanParagraph map paragraph, keyShape r.2.1) := by
  have hInv := scanInv_foldl map paragraph (splitAny WORD_SPLITS paragraph)
    ⟨[], [], []⟩ (scanInv_init map paragraph)
  set st := (splitAny WORD_SPLITS paragraph).foldl
    (stepToken map paragraph) ⟨[], [], []⟩ with hst
  obtain ⟨h1, h2, h3, h4, h5, h6⟩ := hInv
  unfold scanParagraph finishParagraph
  rw [← hst]
  split
  · next hu =>
    obtain ⟨v, hv⟩ := Option.isSome_iff_exists.mp hu.2.1
    refine ⟨?_, ?_, ?_, ?_⟩
    · intro r hr
      rcases List.mem_append.mp hr with hr | hr
      · exact h1 r hr
      · rw [List.mem_singleton] at hr
        subst hr
        simp [hv]
    · intro r hr
      rcases List.mem_append.mp hr with hr | hr
      · exact Or.inl (h2 r hr)
      · rw [List.mem_singleton] at hr
        subst hr
        exact Or.inr rfl
    · rw [List.map_append, List.nodup_append]
      refine ⟨h3, List.nodup_singleton _, ?_⟩
      intro a ha hb
      rw [List.map_singleton, List.mem_singleton] at hb
      subst hb
      obtain ⟨r, hr, hrk⟩ := List.mem_map.mp ha
      have h' := h4 r hr
      rw [hrk] at h'
      exact hu.2.2 h'
    · intro r hr
      rcases List.mem_append.mp hr with hr | hr
      · exact h6 r hr
      · rw [List.mem_singleton] at hr
        subst hr
        have hks : keyShape st.last_word := by
          refine Or.inr ?_
          intro c hc'
          rcases h5 with h5 | ⟨w, hw⟩
          · rw [h5] at hc'
            simp at hc'
          · exact head_titlecase_not_lower w c (hw ▸ hc')
        exact hks
  · next =>
    exact ⟨h1, fun r hr => Or.inl (h2 r hr), h3, h6⟩

/-- Membership in the whole matcher output comes from one paragraph scan. -/
theorem mem_search_keys (map : Vocab) (text : List Char) (r : SearchRec)
    (h : r ∈ search_keys_in_text map text) :
    ∃ p ∈ splitParagraphs text, r ∈ scanParagraph map p := by
  unfold search_keys_in_text at h
  rw [List.mem_flatten] at h
  obtain ⟨l, hl, hr⟩ := h
  obtain ⟨p, hp, hpl⟩ := List.mem_map.mp hl
  exact ⟨p, hp, hpl ▸ hr⟩

/-! ## Vocabulary-builder lemmas -/

/-- Unfolding `List.lookup` on a cons, stated with an `if`. -/
theorem lookup_cons_ite (l : Vocab) (k key : List Char) (v0 : Nat) :
    List.lookup k ((key, v0) :: l) = if k = key then some v0 else List.lookup k l := by
  by_cases hkk : k = key
  · subst hkk
    simp
  · rw [if_neg hkk, List.lookup_cons]
    have hb : (k == key) = false := beq_eq_false_iff_ne.mpr hkk
    rw [hb]

/-- Inserting never deletes a binding (for lookup purposes). -/
theorem lookup_insertKV_isSome (m : Vocab) (k key : List Char) (v : Nat)
    (h : (List.lookup k m).isSome) :
    (List.lookup k (insertKV m key v)).isSome := by
  unfold insertKV
  rw [List.lookup_cons]
  split
  · rfl
  · exact h

/-- A successful `parseCsvGo` run preserves existing bindings' presence. -/
theorem parseCsvGo_mono (stem : List Char → List Char)
    (banned : List (List Char)) (lines : List (List Char)) (m0 m : Vocab)
    (k : List Char) (h : parseCsvGo stem banned m0 lines = some m)
    (hk : (List.lookup k m0).isSome) : (List.lookup k m).isSome := by
  induction lines generalizing m0 with
  | nil =>
    simp only [parseCsvGo, Option.some.injEq] at h
    exact h ▸ hk
  | cons line rest ih =>
    simp only [parseCsvGo] at h
    split at h
    · split at h
      · rcases hveq : parseU32 (trim ((splitAny ['\t'] line).getD 0 [])) with _ | v0
        · rw [hveq] at h
          exact absurd h (by simp)
        · rw [hveq] at h
          exact ih _ h (lookup_insertKV_isSome m0 k _ v0 hk)
      · exact ih _ h hk
    · exact ih _ h hk

/-- Every binding of a built vocabulary comes from an accepted line whose
title-cased key and parsed numeric field are exactly that binding. -/
theorem parseCsvGo_sound (stem : List Char → List Char)
    (banned : List (List Char)) (lines : List (List Char)) (m0 m : Vocab)
    (k : List Char) (v : Nat) (h : parseCsvGo stem banned m0 lines = some m)
    (hkv : List.lookup k m = some v) :
    List.lookup k m0 = some v ∨
      ∃ line ∈ lines, csvAccepts stem banned line ∧ csvKey line = k ∧
        csvVal line = some v := by
  induction lines generalizing m0 with
  | nil =>
    simp only [parseCsvGo, Option.some.injEq] at h
    exact Or.inl (h ▸ hkv)
  | cons line rest ih =>
    simp only [parseCsvGo] at h
    split at h
    · next hslen =>
      split at h
      · next hacc =>
        rcases hveq : parseU32 (trim ((splitAny ['\t'] line).getD 0 [])) with _ | v0
        · rw [hveq] at h
          exact absurd h (by simp)
        · rw [hveq] at h
          rcases ih _ h with hin | ⟨l, hl, hrest⟩
          · unfold insertKV at hin
            rw [lookup_cons_ite] at hin
            by_cases hkk :
                k = to_ascii_titlecase (trim ((splitAny ['\t'] line).getD 1 []))
            · rw [if_pos hkk] at hin
              refine Or.inr ⟨line, List.mem_cons_self _ _,
                ⟨hslen, hacc.1, hacc.2⟩, hkk.symm, ?_⟩
              rw [Option.some.injEq] at hin
              rw [csvVal, hveq, hin]
            · rw [if_neg hkk] at hin
              exact Or.inl hin
          · exact Or.inr ⟨l, List.mem_cons_of_mem _ hl, hrest⟩
      · rcases ih _ h with hin | ⟨l, hl, hrest⟩
        · exact Or.inl hin
        · exact Or.inr ⟨l, List.mem_cons_of_mem _ hl, hrest⟩
    · rcases ih _ h with hin | ⟨l, hl, hrest⟩
      · exact Or.inl hin
      · exact Or.inr ⟨l, List.mem_cons_of_mem _ hl, hrest⟩

/-- Every accepted line of a successful build contributes its key. -/
theorem parseCsvGo_complete (stem : List Char → List Char)
    (banned : List (List Char)) (lines : List (List Char)) (m0 m : Vocab)
    (k : List Char) (h : parseCsvGo stem banned m0 lines = some m)
    (hex : ∃ line ∈ lines, csvAccepts stem banned line ∧ csvKey line = k) :
    (List.lookup k m).isSome := by
  induction lines generalizing m0 with
  | nil =>
    obtain ⟨l, hl, _⟩ := hex
    simp at hl
  | cons line rest ih =>
    simp only [parseCsvGo] at h
    obtain ⟨l, hl, hacc, hkey⟩ := hex
    rcases List.mem_cons.mp hl with rfl | hl
    · rw [if_pos hacc.1, if_pos ⟨hacc.2.1, hacc.2.2⟩] at h
      rcases hveq : parseU32 (trim ((splitAny ['\t'] l).getD 0 [])) with _ | v0
      · rw [hveq] at h
        exact absurd h (by simp)
      · rw [hveq] at h
        refine parseCsvGo_mono stem banned rest _ m k h ?_
        rw [← hkey]
        unfold insertKV csvKey
        simp
    · split at h
      · split at h
        · rcases hveq : parseU32 (trim ((splitAny ['\t'] line).getD 0 [])) with _ | v0
          · rw [hveq] at h
            exact absurd h (by simp)
          · rw [hveq] at h
            exact ih _ h ⟨l, hl, hacc, hkey⟩
        · exact ih _ h ⟨l, hl, hacc, hkey⟩
      · exact ih _ h ⟨l, hl, hacc, hkey⟩

/-! ## Claims -/

/-- C1: for the vocabulary {"Apple juice"→1, ORANGE→2, Carrot→3, juice→4,
Apple→5} and the text "I have an apple juice and an ORANGE, but I do not
have a CARROT. Apple", `search_keys_in_text` returns exactly three records
in order: the bigram "Apple juice" with identifier 1 (the unigram "juice"
is not reported), the unigram "ORANGE" with identifier 2, and the trailing
unigram "Apple" with identifier 5 whose context masks both occurrences of
Apple; "CARROT" produces no record, the case mismatch being beyond the
first-letter flip. -/
theorem C1_bigram_precedence_case :
    search_keys_in_text vocabCases textCases =
      [("I have an <|MOLECULE|> and an ORANGE, but I do not have a CARROT. Apple".toList,
        "Apple juice".toList, 1),
       ("I have an apple juice and an <|MOLECULE|>, but I do not have a CARROT. Apple".toList,
        "ORANGE".toList, 2),
       ("I have an <|MOLECULE|> juice and an ORANGE, but I do not have a CARROT. <|MOLECULE|>".toList,
        "Apple".toList, 5)] := by decide

/-- C2 (amended): every record's masked context is its paragraph with ALL
occurrences of the matched key, and then all occurrences of its
first-letter-lowercased variant, replaced by the mask token (records from
the paragraph-final token redo the key replacement once more); later
occurrences of the matched surface form do not remain unmasked. -/
theorem C2_mask_all_occurrences (map : Vocab) (text ctx k : List Char)
    (v : Nat) (h : (ctx, k, v) ∈ search_keys_in_text map text) :
    ∃ p ∈ splitParagraphs text,
      ctx = maskKey p k ∨ ctx = replaceAll (maskKey p k) k MASK := by
  obtain ⟨p, hp, hr⟩ := mem_search_keys map text _ h
  exact ⟨p, hp, (scanParagraph_inv map p).2.1 _ hr⟩

theorem C2_mask_all_occurrences_witness :
    ∃ p ∈ splitParagraphs ("Apple x Apple".toList),
      "<|MOLECULE|> x <|MOLECULE|>".toList = maskKey p ("Apple".toList) ∨
      "<|MOLECULE|> x <|MOLECULE|>".toList =
        replaceAll (maskKey p ("Apple".toList)) ("Apple".toList) MASK :=
  C2_mask_all_occurrences [("Apple".toList, 5)] ("Apple x Apple".toList)
    ("<|MOLECULE|> x <|MOLECULE|>".toList) ("Apple".toList) 5 (by decide)

/-- C2 counterexample: for vocabulary {Apple→5} and text "Apple x Apple",
the single record's context masks BOTH occurrences of the matched surface
form "Apple", not only the first; the claim's predicted context, with the
second occurrence left unmasked, differs from the actual one. -/
theorem C2_counterexample :
    search_keys_in_text [("Apple".toList, 5)] "Apple x Apple".toList =
      [("<|MOLECULE|> x <|MOLECULE|>".toList, "Apple".toList, 5)] ∧
    ("<|MOLECULE|> x <|MOLECULE|>".toList : List Char) ≠
      "<|MOLECULE|> x Apple".toList := by decide

/-- C3: within one paragraph a key is never reported twice (the per-scan
record keys are pairwise distinct); a surface form occurring twice in one
paragraph yields exactly one record, and the same surface form in a second
paragraph of the same document yields a second, independent record. -/
theorem C3_paragraph_scoped_dedup :
    (∀ (map : Vocab) (text p : List Char), p ∈ splitParagraphs text →
      ((scanParagraph map p).map (fun r => r.2.1)).Nodup) ∧
    search_keys_in_text [("Apple".toList, 5)] "Apple apple".toList =
      [("<|MOLECULE|> <|MOLECULE|>".toList, "Apple".toList, 5)] ∧
    search_keys_in_text [("Apple".toList, 5)] "Apple\n\nApple".toList =
      [("<|MOLECULE|>".toList, "Apple".toList, 5),
       ("<|MOLECULE|>".toList, "Apple".toList, 5)] := by
  refine ⟨?_, by decide, by decide⟩
  intro map text p _
  exact (scanParagraph_inv map p).2.2.1

theorem C3_paragraph_scoped_dedup_witness :
    ((scanParagraph [("Apple".toList, 5)] "Apple".toList).map
      (fun r => r.2.1)).Nodup :=
  C3_paragraph_scoped_dedup.1 [("Apple".toList, 5)] ("Apple".toList)
    ("Apple".toList) (by decide)

/-- C4: when the build succeeds, the vocabulary has an entry for a key iff
some input line splits on a single tab into exactly two fields whose trimmed
surface form is at least 5 characters long and whose standardized stem is
not banned, the key being the title-cased surface form; every binding's
value is the u32-parsed numeric field of such a line; and the concrete
two-line instance (with the stem of "example" banned) builds exactly
{"World" → 16}. -/
theorem C4_parse_csv_iff :
    (∀ stem banned lines m k, parse_csv stem banned lines = some m →
      ((List.lookup k m).isSome ↔
        ∃ line ∈ lines, csvAccepts stem banned line ∧ csvKey line = k)) ∧
    (∀ stem banned lines m k v, parse_csv stem banned lines = some m →
      List.lookup k m = some v →
      ∃ line ∈ lines, csvAccepts stem banned line ∧ csvKey line = k ∧
        csvVal line = some v) ∧
    parse_csv stemEx ["exampl".toList]
      ["43\texample".toList, "16\tworld".toList] =
      some [("World".toList, 16)] := by
  refine ⟨?_, ?_, by decide⟩
  · intro stem banned lines m k h
    constructor
    · intro hs
      obtain ⟨v, hv⟩ := Option.isSome_iff_exists.mp hs
      rcases parseCsvGo_sound stem banned lines [] m k v h hv with
        hin | ⟨l, hl, ha, hk, _⟩
      · simp at hin
      · exact ⟨l, hl, ha, hk⟩
    · intro hex
      exact parseCsvGo_complete stem banned lines [] m k h hex
  · intro stem banned lines m k v h hv
    rcases parseCsvGo_sound stem banned lines [] m k v h hv with hin | hex
    · simp at hin
    · exact hex

theorem C4_parse_csv_iff_witness :
    (List.lookup ("World".toList) [("World".toList, 16)]).isSome ↔
      ∃ line ∈ ["43\texample".toList, "16\tworld".toList],
        csvAccepts stemEx ["exampl".toList] line ∧
          csvKey line = "World".toList :=
  C4_parse_csv_iff.1 stemEx ["exampl".toList]
    ["43\texample".toList, "16\tworld".toList] [("World".toList, 16)]
    "World".toList (by decide)

/-- C5: in the gz worker loop, an object line lacking the text property is
skipped and processing continues with the next line; empty lines and lines
failing JSON parsing are likewise skipped without failing the run; an object
line that has the text property but no numeric corpusid is a fatal error
terminating the whole run. -/
theorem C5_gz_error_policy :
    (∀ (map : Vocab) (count : Nat) (rest : List GzLine) (x : Option Nat),
      processGzLines map count (GzLine.obj none x :: rest) =
        processGzLines map count rest) ∧
    (∀ (map : Vocab) (count : Nat) (rest : List GzLine),
      processGzLines map count (GzLine.empty :: rest) =
        processGzLines map count rest) ∧
    (∀ (map : Vocab) (count : Nat) (rest : List GzLine),
      processGzLines map count (GzLine.badJson :: rest) =
        processGzLines map count rest) ∧
    (∀ (map : Vocab) (count : Nat) (t : List Char) (rest : List GzLine),
      count ≠ 1000 →
      processGzLines map count (GzLine.obj (some t) none :: rest) =
        Except.error ()) := by
  refine ⟨?_, ?_, ?_, ?_⟩
  · intro map count rest x
    by_cases hc : count = 1000
    · subst hc
      cases rest <;> simp [processGzLines]
    · simp [processGzLines, hc]
  · intro map count rest
    by_cases hc : count = 1000
    · subst hc
      cases rest <;> simp [processGzLines]
    · simp [processGzLines, hc]
  · intro map count rest
    by_cases hc : count = 1000
    · subst hc
      cases rest <;> simp [processGzLines]
    · simp [processGzLines, hc]
  · intro map count t rest hc
    simp [processGzLines, hc]

theorem C5_gz_error_policy_witness :
    processGzLines [] 0 [GzLine.obj (some []) none] = Except.error () :=
  C5_gz_error_policy.2.2.2 [] 0 [] [] (by decide)

/-- C6 (amended): re-running the matcher on a masked context does not
re-report the masked key through its masked occurrences, and for a
vocabulary whose only entry is the masked key the re-run yields zero
records; shown on vocabulary {World→2} and text "worldhello world". -/
theorem C6_rerun_masked_single_key :
    search_keys_in_text [("World".toList, 2)] "worldhello world".toList =
      [("<|MOLECULE|>hello <|MOLECULE|>".toList, "World".toList, 2)] ∧
    search_keys_in_text [("World".toList, 2)]
      "<|MOLECULE|>hello <|MOLECULE|>".toList = [] := by decide

/-- C6 counterexample: with vocabulary {Hello→1, World→2} — whose surface
forms do not include the mask token — the text "worldhello world" yields one
record masking "World", and re-running the matcher on that masked context
yields a further match ("Hello" becomes a standalone token once the
substring masking splits "worldhello"), refuting "zero further matches". -/
theorem C6_counterexample :
    List.lookup MASK vocabHW = none ∧
    search_keys_in_text vocabHW ("worldhello world".toList) =
      [("<|MOLECULE|>hello <|MOLECULE|>".toList, "World".toList, 2)] ∧
    search_keys_in_text vocabHW ("<|MOLECULE|>hello <|MOLECULE|>".toList) =
      [("<|MOLECULE|><|MOLECULE|> <|MOLECULE|>".toList, "Hello".toList, 1)] ∧
    search_keys_in_text vocabHW ("<|MOLECULE|>hello <|MOLECULE|>".toList) ≠
      [] := by decide

/-- C8 (amended): the report writer emits exactly one entry per record, of
the form `"word",cid,"context",docid` followed by a newline, with embedded
double quotes escaped as `\"` in the masked-context field only; the matched
surface form is written verbatim. -/
theorem C8_report_format (results : List SearchRec) (paper_id : List Char) :
    generate_report results paper_id =
      (results.map (reportLineSpec paper_id)).flatten := by
  unfold generate_report
  congr 1
  apply List.map_congr_left
  intro r _
  simp [reportLineSpec, List.append_assoc]

/-- C8 counterexample: a record whose matched surface form contains a double
quote is written with that quote unescaped (the writer escapes only the
context field), contradicting the claim that both quoted fields are
escaped. -/
theorem C8_counterexample :
    generate_report [([], "a\"b".toList, 7)] [] = "\"a\"b\",7,\"\",\n".toList ∧
    ("\"a\"b\",7,\"\",\n".toList : List Char) ≠ "\"a\\\"b\",7,\"\",\n".toList := by
  decide

/-- C9: every record the matcher emits carries a key present in the
vocabulary, and its identifier is exactly the value the vocabulary maps
that key to. -/
theorem C9_key_value_in_vocab (map : Vocab) (text ctx k : List Char)
    (v : Nat) (h : (ctx, k, v) ∈ search_keys_in_text map text) :
    List.lookup k map = some v := by
  obtain ⟨p, _, hr⟩ := mem_search_keys map text _ h
  exact (scanParagraph_inv map p).1 _ hr

theorem C9_key_value_in_vocab_witness :
    List.lookup ("Apple".toList) [("Apple".toList, 5)] = some 5 :=
  C9_key_value_in_vocab [("Apple".toList, 5)] ("Apple pie".toList)
    ("<|MOLECULE|> pie".toList) ("Apple".toList) 5 (by decide)

/-- C10: a space-free vocabulary key whose first character is a lowercase
ASCII letter is never matched — every emitted key either contains a space
(a bigram candidate) or starts with a non-lowercase-ASCII character (a
title-cased token) — while a lowercase word still participates as the
second component of a bigram key ("Apple juice" is matched in the C1
text, its second component being the raw lowercase "juice"). -/
theorem C10_lowercase_unigram_unreachable :
    (∀ (map : Vocab) (text ctx k : List Char) (v : Nat),
      (ctx, k, v) ∈ search_keys_in_text map text → ' ' ∉ k →
      ∀ c, k.head? = some c → ¬ ('a' ≤ c ∧ c ≤ 'z')) ∧
    ("I have an <|MOLECULE|> and an ORANGE, but I do not have a CARROT. Apple".toList,
      "Apple juice".toList, 1) ∈ search_keys_in_text vocabCases textCases := by
  refine ⟨?_, by decide⟩
  intro map text ctx k v h hsp c hc
  obtain ⟨p, _, hr⟩ := mem_search_keys map text _ h
  rcases (scanParagraph_inv map p).2.2.2 _ hr with hks | hks
  · exact absurd hks hsp
  · exact hks c hc

theorem C10_lowercase_unigram_unreachable_witness :
    ¬ ('a' ≤ 'O' ∧ 'O' ≤ 'z') :=
  C10_lowercase_unigram_unreachable.1 vocabCases textCases
    ("I have an apple juice and an <|MOLECULE|>, but I do not have a CARROT. Apple".toList)
    ("ORANGE".toList) 2 (by decide) (by decide) 'O' rfl

end ChemMatcher
